import Mathlib

/-!
Verification of the Vault-4 rebalancing engine against its specification.

The TypeScript sources are shallowly embedded: JS `number` values are
modelled as exact rationals (`ℚ`), with `Option ℚ` where the source checks
`Number.isFinite` (`none` models a non-finite number or `null`/`undefined`);
amounts at the micro-USD transfer boundary are integers (`ℤ`).  External
I/O (the Hyperliquid ledger) is modelled by oracle parameters: a function
from call index to the call's outcome (`none` = the call succeeded,
`some m` = the call threw with message `m`).
-/

namespace Vault4

/-- JS `Math.round`: round half toward positive infinity. -/
def jsRound (q : ℚ) : ℤ := ⌊q + 1/2⌋

/-- `roundUsd(value) = Math.round(value * 100) / 100` (DepositService). -/
def roundUsd (q : ℚ) : ℚ := (jsRound (q * 100) : ℚ) / 100

/-- `roundPct(value) = Math.round(value * 100) / 100` (DepositService). -/
def roundPct (q : ℚ) : ℚ := (jsRound (q * 100) : ℚ) / 100

/-- `String.prototype.toLowerCase()`, modelled structurally over the
character list. -/
def strToLower (s : String) : String := ⟨s.data.map Char.toLower⟩

namespace Deposit

/-- One ranked candidate (`VaultRecommendation` in `vaults/types`).
`score` is `none` when the source value is missing (the code reads
`rec.score ?? 0`). -/
structure VaultRecommendation where
  vaultAddress : String
  name : String := ""
  score : Option ℚ := none
deriving DecidableEq

/-- `SuggestedAllocations` hint carried by a `RecommendationSet`.
A field is `none` when `Number.isFinite(Number(hints.x))` is false. -/
structure SuggestedAllocations where
  highPct : Option ℚ := none
  lowPct : Option ℚ := none
deriving DecidableEq

/-- A `RecommendationSet` as consumed by `DepositService.buildDepositPlan`. -/
structure RecommendationSet where
  highConfidence : List VaultRecommendation
  lowConfidence : List VaultRecommendation
  suggestedAllocations : Option SuggestedAllocations := none
deriving DecidableEq

/-- One entry of `HyperliquidConnector.getUserVaultEquities`. -/
structure EquityEntry where
  vaultAddress : String
  equity : ℚ
deriving DecidableEq

inductive Confidence where
  | high
  | low
deriving DecidableEq

/-- `DepositTarget` (DepositService). -/
structure DepositTarget where
  vaultAddress : String
  name : String
  confidence : Confidence
  targetPct : ℚ
  targetUsd : ℚ
  currentUsd : ℚ
  desiredUsd : ℚ
  depositUsd : ℚ
deriving DecidableEq

/-- `clampCount(value, min, max?)`: `Math.min(upper, Math.max(min, Math.floor(num)))`
with `upper = +∞` when `max` is omitted.  (`Number.isFinite(num)` always
holds for a rational input.) -/
def clampCount (value : ℚ) (lo : ℤ) (hi : Option ℤ) : ℤ :=
  match hi with
  | some u => min u (max lo ⌊value⌋)
  | none => max lo ⌊value⌋

/-- `normalizeGroupPcts(highPct, lowPct, highCount, lowCount)` from
DepositService, verbatim: an empty selected group hands its whole
percentage share to the other group; otherwise the raw pair is rescaled
to sum to 100 (falling back to 70/30 on a non-positive total). -/
def normalizeGroupPcts (highPct lowPct : ℚ) (highCount lowCount : ℕ) :
    ℚ × ℚ :=
  if highCount = 0 ∧ lowCount = 0 then (0, 0)
  else if highCount = 0 then (0, 100)
  else if lowCount = 0 then (100, 0)
  else
    let total := highPct + lowPct
    if total ≤ 0 then (70, 30)
    else (roundPct (highPct * (100 / total)), roundPct (lowPct * (100 / total)))

/-- Stable insertion into a list sorted by descending `score ?? 0`;
models one step of the stable `Array.prototype.sort` with comparator
`(a, b) => (b.score ?? 0) - (a.score ?? 0)`. -/
def insertByScore (r : VaultRecommendation) :
    List VaultRecommendation → List VaultRecommendation
  | [] => [r]
  | x :: xs =>
    if r.score.getD 0 < x.score.getD 0 then x :: insertByScore r xs
    else r :: x :: xs

/-- Stable sort by descending `score ?? 0` (the `.sort((a, b) =>
(b.score ?? 0) - (a.score ?? 0))` calls in `buildDepositPlan`). -/
def sortByScoreDesc : List VaultRecommendation → List VaultRecommendation
  | [] => []
  | x :: xs => insertByScore x (sortByScoreDesc xs)

/-- `buildTargetFromAllocation(rec, confidence, groupAllocationUsd, groupCount)`. -/
def buildTargetFromAllocation (rec : VaultRecommendation)
    (confidence : Confidence) (groupAllocationUsd : ℚ) (groupCount : ℕ) :
    DepositTarget :=
  let perVaultUsd : ℚ :=
    if 0 < groupCount then groupAllocationUsd / groupCount else 0
  let depositUsd := roundUsd perVaultUsd
  let targetPct : ℚ := if 0 < groupCount then 100 / groupCount else 0
  { vaultAddress := rec.vaultAddress
    name := rec.name
    confidence := confidence
    targetPct := targetPct
    targetUsd := depositUsd
    currentUsd := 0
    desiredUsd := depositUsd
    depositUsd := depositUsd }

/-- Inputs of one `DepositService.buildDepositPlan` call.  The `...In`
fields are the option values after `??`-defaulting against the
environment-derived constants (`DEPOSIT_ACTIVE_COUNT` etc.); the
recommendation set and the two ledger reads are the external inputs. -/
structure PlanInputs where
  recommendations : RecommendationSet
  perpsBalanceUsd : ℚ
  currentEquities : List EquityEntry
  maxActiveIn : ℚ := 10
  highCountIn : ℚ := 7
  lowCountIn : ℚ := 3
  rawHighPct : ℚ := 80
  rawLowPct : ℚ := 20
deriving DecidableEq

/-- Every intermediate of one `buildDepositPlan` run, named as in the
source. -/
structure PlanCalc where
  maxActive : ℤ
  highCount : ℤ
  lowCount : ℤ
  highSelected : List VaultRecommendation
  lowSelected : List VaultRecommendation
  actualHighCount : ℕ
  actualLowCount : ℕ
  highPct : ℚ
  lowPct : ℚ
  groupHighPct : ℚ
  groupLowPct : ℚ
  significantEquities : List EquityEntry
  currentVaultCount : ℕ
  currentInvestedUsd : ℚ
  totalCapitalUsd : ℚ
  availableSlots : ℕ
  limitedHigh : List VaultRecommendation
  limitedLow : List VaultRecommendation
  filteredHighCount : ℕ
  filteredLowCount : ℕ
  totalHighCount : ℕ
  totalLowCount : ℕ
  highTargetPerVault : ℚ
  lowTargetPerVault : ℚ
  highAllocationNeeded : ℚ
  lowAllocationNeeded : ℚ
  totalAllocationNeeded : ℚ
  availableForDeposit : ℚ
  scaleFactor : ℚ
  adjustedHighAllocation : ℚ
  adjustedLowAllocation : ℚ
  targets : List DepositTarget
  availableBalanceUsd : ℚ

/-- The dust threshold used when counting active vaults (`DUST_THRESHOLD_USD`). -/
def DUST_THRESHOLD_USD : ℚ := 1

/-- The pure computation of `DepositService.buildDepositPlan`, line by
line (logging elided). -/
def planCalc (i : PlanInputs) : PlanCalc :=
  let maxActive := clampCount i.maxActiveIn 1 none
  let highCount := clampCount i.highCountIn 0 (some maxActive)
  let lowCount := clampCount i.lowCountIn 0 (some (maxActive - highCount))
  let highSelected := i.recommendations.highConfidence.take highCount.toNat
  let lowSelected := i.recommendations.lowConfidence.take lowCount.toNat
  let actualHighCount := highSelected.length
  let actualLowCount := lowSelected.length
  let norm := normalizeGroupPcts i.rawHighPct i.rawLowPct actualHighCount actualLowCount
  let highPct := norm.1
  let lowPct := norm.2
  let hints := i.recommendations.suggestedAllocations
  let groupHighPct :=
    match hints with
    | some h => match h.highPct with | some v => v | none => highPct
    | none => highPct
  let groupLowPct :=
    match hints with
    | some h => match h.lowPct with | some v => v | none => lowPct
    | none => lowPct
  let significantEquities :=
    i.currentEquities.filter (fun e => DUST_THRESHOLD_USD ≤ e.equity)
  let hasExposure := fun (addr : String) =>
    significantEquities.any (fun e => (strToLower e.vaultAddress) == addr)
  let currentVaultCount := significantEquities.length
  let currentInvestedUsd := (significantEquities.map (fun e => e.equity)).sum
  let totalCapitalUsd := i.perpsBalanceUsd + currentInvestedUsd
  let highWithoutExposure :=
    sortByScoreDesc (highSelected.filter (fun r => !hasExposure (strToLower r.vaultAddress)))
  let lowWithoutExposure :=
    sortByScoreDesc (lowSelected.filter (fun r => !hasExposure (strToLower r.vaultAddress)))
  let availableSlots := (maxActive - currentVaultCount).toNat
  let highSlotsToUse := min highWithoutExposure.length availableSlots
  let remainingSlots := availableSlots - highSlotsToUse
  let lowSlotsToUse := min lowWithoutExposure.length remainingSlots
  let limitedHigh := highWithoutExposure.take highSlotsToUse
  let limitedLow := lowWithoutExposure.take lowSlotsToUse
  let filteredHighCount := limitedHigh.length
  let filteredLowCount := limitedLow.length
  let totalHighCount := i.recommendations.highConfidence.length
  let totalLowCount := i.recommendations.lowConfidence.length
  let highTargetPerVault : ℚ :=
    if 0 < totalHighCount then totalCapitalUsd * (groupHighPct / 100) / totalHighCount
    else 0
  let lowTargetPerVault : ℚ :=
    if 0 < totalLowCount then totalCapitalUsd * (groupLowPct / 100) / totalLowCount
    else 0
  let highAllocationNeeded := highTargetPerVault * filteredHighCount
  let lowAllocationNeeded := lowTargetPerVault * filteredLowCount
  let totalAllocationNeeded := highAllocationNeeded + lowAllocationNeeded
  let availableForDeposit := min i.perpsBalanceUsd totalAllocationNeeded
  let scaleFactor : ℚ :=
    if 0 < totalAllocationNeeded then availableForDeposit / totalAllocationNeeded
    else 0
  let adjustedHighAllocation := highAllocationNeeded * scaleFactor
  let adjustedLowAllocation := lowAllocationNeeded * scaleFactor
  let targets :=
    limitedHigh.map
      (fun r => buildTargetFromAllocation r .high adjustedHighAllocation filteredHighCount)
    ++ limitedLow.map
      (fun r => buildTargetFromAllocation r .low adjustedLowAllocation filteredLowCount)
  { maxActive := maxActive
    highCount := highCount
    lowCount := lowCount
    highSelected := highSelected
    lowSelected := lowSelected
    actualHighCount := actualHighCount
    actualLowCount := actualLowCount
    highPct := highPct
    lowPct := lowPct
    groupHighPct := groupHighPct
    groupLowPct := groupLowPct
    significantEquities := significantEquities
    currentVaultCount := currentVaultCount
    currentInvestedUsd := currentInvestedUsd
    totalCapitalUsd := totalCapitalUsd
    availableSlots := availableSlots
    limitedHigh := limitedHigh
    limitedLow := limitedLow
    filteredHighCount := filteredHighCount
    filteredLowCount := filteredLowCount
    totalHighCount := totalHighCount
    totalLowCount := totalLowCount
    highTargetPerVault := highTargetPerVault
    lowTargetPerVault := lowTargetPerVault
    highAllocationNeeded := highAllocationNeeded
    lowAllocationNeeded := lowAllocationNeeded
    totalAllocationNeeded := totalAllocationNeeded
    availableForDeposit := availableForDeposit
    scaleFactor := scaleFactor
    adjustedHighAllocation := adjustedHighAllocation
    adjustedLowAllocation := adjustedLowAllocation
    targets := targets
    availableBalanceUsd := i.perpsBalanceUsd }

end Deposit

namespace Rebalance

open Deposit

/-- Terminal transfer states (`VaultTransferAction.status`). -/
inductive TransferStatus where
  | skipped
  | prepared
  | submitted
  | error
deriving DecidableEq, BEq

/-- `VaultTransferAction` (RebalanceService). -/
structure VaultTransferAction where
  vaultAddress : String
  equity : Option ℚ := none
  usdMicros : ℤ
  status : TransferStatus
  reason : Option String := none
  errMsg : Option String := none
deriving DecidableEq

/-- `isInsufficientEquityError(message)`: substring match of
`"insufficient vault equity"` against the lower-cased message. -/
def isInsufficientEquityError (message : Option String) : Bool :=
  match message with
  | none => false
  | some m => decide ("insufficient vault equity".data <:+: (strToLower m).data)

/-- Result of one `attemptWithdrawal` (the catch around
`HyperliquidConnector.vaultTransfer`): `submitted` with the amount, or
`error` with the thrown message. -/
structure AttemptResult where
  submitted : Bool
  errMsg : Option String := none
  actualUsdMicros : Option ℤ := none
deriving DecidableEq

/-- One `attemptWithdrawal(vaultAddress, usdMicros)` call; `outcome` is
the ledger's response to this call. -/
def attemptWithdrawal (usdMicros : ℤ) (outcome : Option String) : AttemptResult :=
  match outcome with
  | none => { submitted := true, actualUsdMicros := some usdMicros }
  | some m => { submitted := false, errMsg := some m }

/-- `WITHDRAWAL_RETRY_PERCENTAGES = [0.95, 0.90, 0.85, 0.80, 0.75, 0.70, 0.60, 0.50]`. -/
def WITHDRAWAL_RETRY_PERCENTAGES : List ℚ :=
  [19/20, 9/10, 17/20, 4/5, 3/4, 7/10, 3/5, 1/2]

/-- `MIN_WITHDRAWAL_USD = 1` ($1 floor for retries). -/
def MIN_WITHDRAWAL_USD : ℤ := 1

/-- The terminal result after the ladder is exhausted (or the floor is
reached): `{ status: "error", error: "Insufficient equity even at 50% of
reported value" }`. -/
def ladderExhausted : AttemptResult :=
  { submitted := false,
    errMsg := some "Insufficient equity even at 50% of reported value" }

/-- The retry loop of `attemptWithdrawalWithRetry`, instrumented with the
list of amounts actually passed to the ledger.  `ledger idx` is the
outcome of the idx-th `vaultTransfer` call of this withdrawal. -/
def retryLadder (ledger : ℕ → Option String) (initialUsdMicros : ℤ) :
    List ℚ → ℕ → AttemptResult × List ℤ
  | [], _ => (ladderExhausted, [])
  | pct :: rest, idx =>
    let retryMicros : ℤ := ⌊(initialUsdMicros : ℚ) * pct⌋
    if retryMicros < MIN_WITHDRAWAL_USD * 1000000 then
      (ladderExhausted, [])
    else
      match ledger idx with
      | none =>
        ({ submitted := true, actualUsdMicros := some retryMicros }, [retryMicros])
      | some m =>
        if isInsufficientEquityError (some m) then
          let r := retryLadder ledger initialUsdMicros rest (idx + 1)
          (r.1, retryMicros :: r.2)
        else
          ({ submitted := false, errMsg := some m }, [retryMicros])

/-- `attemptWithdrawalWithRetry(vaultAddress, initialUsdMicros)`,
instrumented with the sequence of amounts submitted to the ledger. -/
def attemptWithdrawalWithRetry (ledger : ℕ → Option String)
    (initialUsdMicros : ℤ) : AttemptResult × List ℤ :=
  match ledger 0 with
  | none =>
    ({ submitted := true, actualUsdMicros := some initialUsdMicros },
      [initialUsdMicros])
  | some m =>
    if isInsufficientEquityError (some m) then
      let r := retryLadder ledger initialUsdMicros WITHDRAWAL_RETRY_PERCENTAGES 1
      (r.1, initialUsdMicros :: r.2)
    else
      ({ submitted := false, errMsg := some m }, [initialUsdMicros])

/-- Options of `RebalanceService.depositToVault`. -/
structure DepositVaultOptions where
  vaultAddress : String
  amountUsd : Option ℚ := none
  usdMicros : Option ℚ := none
  dryRun : Option Bool := none
deriving DecidableEq

/-- `toUsdMicrosFromDeposit(options)`. -/
def toUsdMicrosFromDeposit (o : DepositVaultOptions) : ℤ :=
  match o.usdMicros with
  | some v => max 0 ⌊v⌋
  | none =>
    match o.amountUsd with
    | some v => max 0 ⌊v * 1000000⌋
    | none => 0

/-- `RebalanceService.depositToVault(options)`; `transferOutcome` is the
ledger's response when the deposit is actually submitted. -/
def depositToVault (o : DepositVaultOptions) (transferOutcome : Option String) :
    VaultTransferAction :=
  let usdMicros := toUsdMicrosFromDeposit o
  if usdMicros ≤ 0 then
    { vaultAddress := o.vaultAddress, usdMicros := usdMicros,
      status := .skipped, reason := some "zero-amount" }
  else if o.dryRun.getD true then
    { vaultAddress := o.vaultAddress, usdMicros := usdMicros,
      status := .prepared }
  else
    match transferOutcome with
    | none =>
      { vaultAddress := o.vaultAddress, usdMicros := usdMicros,
        status := .submitted }
    | some m =>
      { vaultAddress := o.vaultAddress, usdMicros := usdMicros,
        status := .error, errMsg := some m }

end Rebalance

namespace Exec

open Deposit Rebalance

/-- Options of `DepositService.executeDepositPlan`. -/
structure ExecOptions where
  dryRun : Option Bool := none
  minDepositUsd : Option ℚ := none
deriving DecidableEq

/-- `ExecuteDepositPlanResult` (wallet field elided). -/
structure ExecuteDepositPlanResult where
  dryRun : Bool
  total : ℕ
  submitted : ℕ
  skipped : ℕ
  errors : ℕ
  actions : List VaultTransferAction
deriving DecidableEq

/-- The `for (const target of plan.targets)` loop of
`executeDepositPlan`, with its three counters.  `ledger k` is the
outcome of the transfer for the k-th plan target, when one is submitted
for it. -/
def executeLoop (dryRun : Bool) (minDepositUsd : ℚ)
    (ledger : ℕ → Option String) :
    List DepositTarget → ℕ → ℕ × ℕ × ℕ × List VaultTransferAction
  | [], _ => (0, 0, 0, [])
  | t :: rest, k =>
    if t.depositUsd < minDepositUsd then
      let action : VaultTransferAction :=
        { vaultAddress := t.vaultAddress,
          usdMicros := ⌊t.depositUsd * 1000000⌋,
          status := .skipped, reason := some "below-minimum" }
      let r := executeLoop dryRun minDepositUsd ledger rest (k + 1)
      (r.1, r.2.1 + 1, r.2.2.1, action :: r.2.2.2)
    else
      let action :=
        depositToVault
          { vaultAddress := t.vaultAddress, amountUsd := some t.depositUsd,
            dryRun := some dryRun }
          (ledger k)
      let r := executeLoop dryRun minDepositUsd ledger rest (k + 1)
      (r.1 + (if action.status = .submitted then 1 else 0),
        r.2.1 + (if action.status = .skipped then 1 else 0),
        r.2.2.1 + (if action.status = .error then 1 else 0),
        action :: r.2.2.2)

/-- `DepositService.executeDepositPlan(plan, options)` over the plan's
target list. -/
def executeDepositPlan (targets : List DepositTarget) (o : ExecOptions)
    (ledger : ℕ → Option String) : ExecuteDepositPlanResult :=
  let dryRun := o.dryRun.getD true
  let minDepositUsd := max 0 (o.minDepositUsd.getD 5)
  let r := executeLoop dryRun minDepositUsd ledger targets 0
  { dryRun := dryRun
    total := targets.length
    submitted := r.1
    skipped := r.2.1
    errors := r.2.2.1
    actions := r.2.2.2 }

end Exec

namespace Orchestrator

open Deposit

/-- One position as read by `RebalanceOrchestrator.runRound` from
`VaultService.getPlatformPositions` (fields the round consults, plus the
activity counters named by the spec's data model —
`activePositionCount`, `tradesLast7d` — which `runRound` never reads). -/
structure PositionRec where
  vaultAddress : String
  vaultName : String := ""
  amountUsd : Option ℚ := none
  pnlUsd : Option ℚ := none
  roePct : Option ℚ := none
  activePositionCount : ℕ := 0
  tradesLast7d : ℕ := 0
deriving DecidableEq

/-- One entry of the orchestrator's barbell target map. -/
structure TargetAllocation where
  targetUsd : ℚ
  confidence : Confidence
deriving DecidableEq

/-- `buildTargetAllocations(recommendations, totalCapitalUsd)`.
`envHighPct`/`envLowPct` model `Number(process.env.DEPOSIT_HIGH_PCT || 80)`
and the low counterpart. -/
def buildTargetAllocations (recs : RecommendationSet)
    (totalCapitalUsd envHighPct envLowPct : ℚ) :
    List (String × TargetAllocation) :=
  let highCount := recs.highConfidence.length
  let lowCount := recs.lowConfidence.length
  if highCount = 0 ∧ lowCount = 0 then []
  else
    let highTotalUsd := totalCapitalUsd * (envHighPct / 100)
    let lowTotalUsd := totalCapitalUsd * (envLowPct / 100)
    let targetPerHighVault : ℚ :=
      if 0 < highCount then highTotalUsd / highCount else 0
    let targetPerLowVault : ℚ :=
      if 0 < lowCount then lowTotalUsd / lowCount else 0
    recs.highConfidence.map
      (fun r => ((strToLower r.vaultAddress),
        ({ targetUsd := targetPerHighVault, confidence := .high } : TargetAllocation)))
    ++ recs.lowConfidence.map
      (fun r => ((strToLower r.vaultAddress),
        ({ targetUsd := targetPerLowVault, confidence := .low } : TargetAllocation)))

/-- JS `Map` lookup for a map built by successive `set` calls on an
association list: the **last** binding of a key wins. -/
def mapGet (m : List (String × TargetAllocation)) (k : String) :
    Option TargetAllocation :=
  m.reverse.lookup k

/-- `TP_THRESHOLD_PCT = 10` (hardcoded take-profit ROE threshold). -/
def TP_THRESHOLD_PCT : ℚ := 10

/-- The take-profit gate of the first `for` loop of `runRound`: returns
`some targetUsd` exactly when the loop reaches the
`withdrawPartialFromVault` call for this position (with that target),
and `none` on any `continue`. -/
def tpGate (recommended : List String)
    (allocations : List (String × TargetAllocation)) (p : PositionRec) :
    Option ℚ :=
  let address := (strToLower p.vaultAddress)
  if ¬ recommended.contains address then none
  else if p.roePct.getD 0 < TP_THRESHOLD_PCT then none
  else
    match mapGet allocations address with
    | none => none
    | some targetAllocation =>
      if p.amountUsd.getD 0 ≤ targetAllocation.targetUsd then none
      else some targetAllocation.targetUsd

/-- The gate of the second `for` loop of `runRound` (full exit from
non-recommended vaults): `true` exactly when the loop reaches the
`withdrawAllFromVault` call for this position. -/
def withdrawGate (recommended : List String) (p : PositionRec) : Bool :=
  let address := (strToLower p.vaultAddress)
  if recommended.contains address then false
  else
    match p.pnlUsd with
    | some v => decide (0 < v)
    | none => false

/-- The decision content of one `RebalanceOrchestrator.runRound`:
which positions trigger a take-profit partial withdrawal (and down to
which target), and which trigger a full withdrawal. -/
structure RoundDecisions where
  recommended : List String
  allocations : List (String × TargetAllocation)
  tpCalls : List (PositionRec × ℚ)
  withdrawalCalls : List PositionRec

/-- One `runRound` over the plan inputs and the positions snapshot:
the recommended set is the plan's target addresses (lower-cased), the
barbell targets come from `buildTargetAllocations` over the full
recommendation set and the plan's total capital. -/
def runRoundDecisions (i : PlanInputs) (envHighPct envLowPct : ℚ)
    (positions : List PositionRec) : RoundDecisions :=
  let c := planCalc i
  let recommended := c.targets.map (fun t => (strToLower t.vaultAddress))
  let allocations :=
    buildTargetAllocations i.recommendations c.totalCapitalUsd envHighPct envLowPct
  { recommended := recommended
    allocations := allocations
    tpCalls :=
      positions.filterMap
        (fun p => (tpGate recommended allocations p).map (fun t => (p, t)))
    withdrawalCalls := positions.filter (withdrawGate recommended) }

end Orchestrator

namespace Scheduler

/-- One entry of `HyperliquidConnector.getUserVaultLedgerUpdates`. -/
structure LedgerUpdate where
  type : String
  time : ℤ
deriving DecidableEq

/-- `getLastDepositTime()`: the latest `vaultDeposit` update time, or
`none` when there is none. -/
def getLastDepositTime (updates : List LedgerUpdate) : Option ℤ :=
  updates.foldl
    (fun latest u =>
      if u.type ≠ "vaultDeposit" then latest
      else
        match latest with
        | none => some u.time
        | some t => if u.time > t then some u.time else latest)
    none

/-- The initial-delay computation of `RebalanceScheduler.start()`:
`const elapsed = lastDepositTime ? now - lastDepositTime : null` (note
the JS truthiness test: a timestamp of `0` is falsy), then
`elapsed !== null && elapsed < intervalMs ? intervalMs - elapsed : 0`. -/
def initialDelay (lastDepositTime : Option ℤ) (now intervalMs : ℤ) : ℤ :=
  let elapsed : Option ℤ :=
    match lastDepositTime with
    | some t => if t ≠ 0 then some (now - t) else none
    | none => none
  match elapsed with
  | some e => if e < intervalMs then intervalMs - e else 0
  | none => 0

/-- The delay actually scheduled by `start()` over the raw ledger
updates (`setTimeout(..., Math.max(0, initialDelay))`). -/
def startDelay (updates : List LedgerUpdate) (now intervalMs : ℤ) : ℤ :=
  max 0 (initialDelay (getLastDepositTime updates) now intervalMs)

/-- Result of one `RebalanceScheduler.runOnce()` call.  The result type
is total — `runOnce` cannot surface an exception to its caller: the
`try`/`catch` maps a throwing `runRound` to a logged message
(`loggedError`), never to a propagated exception. -/
structure RunOnceResult where
  running : Bool
  invokedRound : Bool
  loggedError : Option String
deriving DecidableEq

/-- `RebalanceScheduler.runOnce()`: `running` is the in-memory flag at
entry; `roundOutcome` is how `RebalanceOrchestrator.runRound()` ends
when invoked (`Except.error m` models a thrown exception). -/
def runOnce (running : Bool) (roundOutcome : Except String Unit) :
    RunOnceResult :=
  if running then
    { running := running, invokedRound := false, loggedError := none }
  else
    match roundOutcome with
    | .ok _ => { running := false, invokedRound := true, loggedError := none }
    | .error m =>
      { running := false, invokedRound := true, loggedError := some m }

end Scheduler

/-! ## Theorems -/

section SchedulerThms

open Scheduler

/-- Helper: the concrete ledger-update list used to exhibit the
timestamp-zero edge case of `RebalanceScheduler.start()`. -/
def zeroTimeDeposit : List LedgerUpdate := [{ type := "vaultDeposit", time := 0 }]

/-- C7 (counterexample): with a recorded `vaultDeposit` ledger update at
timestamp `0`, a most recent successful deposit timestamp exists
(`getLastDepositTime = some 0`), yet with `now = 1` and
`intervalMs = 2` the scheduler computes delay `0`, while
`max(0, intervalMs - (now - lastDepositTime)) = 1`: the claimed formula
fails because the JS truthiness test `lastDepositTime ?` treats the
timestamp `0` as "no prior deposit". -/
theorem startDelay_zero_timestamp_cex :
    getLastDepositTime zeroTimeDeposit = some 0
    ∧ startDelay zeroTimeDeposit 1 2 = 0
    ∧ max 0 (2 - (1 - 0)) = 1 := by
  refine ⟨by decide, by decide, by decide⟩

/-- C7 (amended): when a prior deposit exists with a **nonzero**
timestamp, the scheduler's initial delay equals
`max(0, intervalMs - (now - lastDepositTime))`; with no prior deposit
the delay is `0`. -/
theorem initialDelay_formula (t now intervalMs : ℤ) (ht : t ≠ 0)
    (hpos : 0 < intervalMs) :
    initialDelay (some t) now intervalMs = max 0 (intervalMs - (now - t))
    ∧ initialDelay none now intervalMs = 0 := by
  constructor
  · simp only [initialDelay, ht, if_true, ne_eq, not_false_eq_true, ite_true]
    split <;> omega
  · rfl

/-- C7 (witness): the spec's resume scenario — last deposit 30 hours
ago (nonzero timestamp), interval 48 hours — computes an 18-hour
initial delay (`64800000 ms`). -/
theorem initialDelay_formula_witness :
    ((1700000000000 - 108000000 : ℤ) ≠ 0 ∧ (0:ℤ) < 172800000)
    ∧ (initialDelay (some (1700000000000 - 108000000)) 1700000000000 172800000
        = max 0 (172800000 - (1700000000000 - (1700000000000 - 108000000)))
      ∧ initialDelay none 1700000000000 172800000 = 0)
    ∧ initialDelay (some (1700000000000 - 108000000)) 1700000000000 172800000
        = 64800000 :=
  ⟨⟨by decide, by decide⟩,
    initialDelay_formula _ _ _ (by decide) (by decide),
    by decide⟩

/-- C8: `runOnce` is guarded by the `running` flag — when a round is in
progress the call is a no-op that never invokes `runRound` — and when a
round is invoked, a thrown exception is caught (surfacing only as a
logged message, the result type carries no exception) and the flag is
reset to `false` afterwards, so the next tick can run. -/
theorem runOnce_overlap_guard_and_catch (o : Except String Unit) (m : String) :
    (runOnce true o).invokedRound = false
    ∧ runOnce true o = { running := true, invokedRound := false, loggedError := none }
    ∧ (runOnce false o).invokedRound = true
    ∧ (runOnce false o).running = false
    ∧ (runOnce false (Except.error m)).loggedError = some m
    ∧ (runOnce false (Except.ok ())).loggedError = none := by
  refine ⟨rfl, rfl, ?_, ?_, rfl, rfl⟩ <;> cases o <;> rfl

end SchedulerThms

section RetryThms

open Rebalance

/-- Every amount the retry loop submits passed the `$1` floor check. -/
lemma retryLadder_floor (ledger : ℕ → Option String) (n : ℤ) :
    ∀ (ps : List ℚ) (idx : ℕ) (x : ℤ),
      x ∈ (retryLadder ledger n ps idx).2 → MIN_WITHDRAWAL_USD * 1000000 ≤ x := by
  intro ps
  induction ps with
  | nil => intro idx x hx; simp [retryLadder] at hx
  | cons p rest ih =>
    intro idx x hx
    simp only [retryLadder] at hx
    split at hx
    · simp at hx
    · next hfloor =>
      push_neg at hfloor
      split at hx
      · simp only [List.mem_singleton] at hx
        exact hx ▸ hfloor
      · split at hx
        · rcases List.mem_cons.mp hx with h | h
          · exact h ▸ hfloor
          · exact ih (idx + 1) x h
        · simp only [List.mem_singleton] at hx
          exact hx ▸ hfloor

/-- The retry loop walks the percentage list in order: the submitted
amounts are exactly `⌊initial * pct⌋` over a prefix of the list. -/
lemma retryLadder_shape (ledger : ℕ → Option String) (n : ℤ) :
    ∀ (ps : List ℚ) (idx : ℕ),
      (retryLadder ledger n ps idx).2
        = (ps.take (retryLadder ledger n ps idx).2.length).map
            (fun p => ⌊(n : ℚ) * p⌋) := by
  intro ps
  induction ps with
  | nil => intro idx; simp [retryLadder]
  | cons p rest ih =>
    intro idx
    simp only [retryLadder]
    split
    · simp
    · split
      · simp
      · split
        · simp only [List.length_cons, List.take_succ_cons, List.map_cons,
            List.cons.injEq, true_and]
          exact ih (idx + 1)
        · simp

/-- Before any retry after the first, the preceding ledger call failed
with an insufficient-equity error. -/
lemma retryLadder_onlyIE (ledger : ℕ → Option String) (n : ℤ) :
    ∀ (ps : List ℚ) (idx j : ℕ),
      j + 1 < (retryLadder ledger n ps idx).2.length →
      isInsufficientEquityError (ledger (idx + j)) = true := by
  intro ps
  induction ps with
  | nil => intro idx j hj; simp [retryLadder] at hj
  | cons p rest ih =>
    intro idx j hj
    simp only [retryLadder] at hj ⊢
    split at hj
    · simp at hj
    · split at hj
      · simp at hj
      · next hled =>
        split at hj
        · next hie =>
          simp only [List.length_cons] at hj
          cases j with
          | zero => simpa [hled] using hie
          | succ j' =>
            have := ih (idx + 1) j' (by omega)
            have harith : idx + 1 + j' = idx + (j' + 1) := by omega
            rwa [harith] at this
        · simp at hj

/-- A submitted retry ends the loop at a successful ledger call for the
last traced amount. -/
lemma retryLadder_success (ledger : ℕ → Option String) (n : ℤ) :
    ∀ (ps : List ℚ) (idx : ℕ),
      (retryLadder ledger n ps idx).1.submitted = true →
      (retryLadder ledger n ps idx).2 ≠ []
      ∧ ledger (idx + ((retryLadder ledger n ps idx).2.length - 1)) = none
      ∧ (retryLadder ledger n ps idx).1.actualUsdMicros
          = (retryLadder ledger n ps idx).2.getLast? := by
  intro ps
  induction ps with
  | nil => intro idx h; simp [retryLadder, ladderExhausted] at h
  | cons p rest ih =>
    intro idx h
    by_cases hfloor : ⌊(n : ℚ) * p⌋ < MIN_WITHDRAWAL_USD * 1000000
    · simp [retryLadder, hfloor, ladderExhausted] at h
    · rcases hled : ledger idx with _ | m
      · simp only [retryLadder, hfloor, hled, if_false, ite_false] at h ⊢
        refine ⟨by simp, by simpa using hled, by simp⟩
      · by_cases hie : isInsufficientEquityError (some m) = true
        · simp only [retryLadder, hfloor, hled, hie, if_false, ite_false,
            if_true, ite_true] at h ⊢
          obtain ⟨hne, hlast, hact⟩ := ih (idx + 1) h
          refine ⟨by simp, ?_, ?_⟩
          · have hlen : (retryLadder ledger n rest (idx + 1)).2.length ≠ 0 :=
              fun hz => hne (List.length_eq_zero.mp hz)
            convert hlast using 2
            simp only [List.length_cons]
            omega
          · have hsome := List.getLast?_isSome.mpr hne
            obtain ⟨y, hy⟩ := Option.isSome_iff_exists.mp hsome
            rw [List.getLast?_cons, hact, hy]
            simp
        · simp [retryLadder, hfloor, hled, hie] at h

/-- Arithmetic core: if a floored scaled amount passed the `$1` floor,
the next (smaller by at least `1/20` of the original) floored amount is
strictly smaller. -/
lemma floor_scale_strict (n : ℤ) (p q : ℚ) (hq0 : 0 < q) (hq1 : q ≤ 19/20)
    (hgap : q + 1/20 ≤ p) (hbig : (1000000 : ℤ) ≤ ⌊(n : ℚ) * q⌋) :
    ⌊(n : ℚ) * q⌋ < ⌊(n : ℚ) * p⌋ := by
  have hnq : (1000000 : ℚ) ≤ (n : ℚ) * q := by
    calc (1000000 : ℚ) = ((1000000 : ℤ) : ℚ) := by norm_num
    _ ≤ (⌊(n : ℚ) * q⌋ : ℚ) := by exact_mod_cast hbig
    _ ≤ (n : ℚ) * q := Int.floor_le _
  have hn : (1000000 : ℚ) ≤ (n : ℚ) := by
    nlinarith
  have hstep : ((⌊(n : ℚ) * q⌋ + 1 : ℤ) : ℚ) ≤ (n : ℚ) * p := by
    have h1 : (⌊(n : ℚ) * q⌋ : ℚ) ≤ (n : ℚ) * q := Int.floor_le _
    push_cast
    nlinarith
  have := Int.le_floor.mpr hstep
  omega

/-- Arithmetic core for the head step: if the first retry passed the
floor, it is strictly below the initial amount. -/
lemma floor_scale_head (n : ℤ) (p : ℚ) (hp0 : 0 < p) (hp1 : p ≤ 19/20)
    (hbig : (1000000 : ℤ) ≤ ⌊(n : ℚ) * p⌋) :
    ⌊(n : ℚ) * p⌋ < n := by
  have hnp : (1000000 : ℚ) ≤ (n : ℚ) * p := by
    calc (1000000 : ℚ) = ((1000000 : ℤ) : ℚ) := by norm_num
    _ ≤ (⌊(n : ℚ) * p⌋ : ℚ) := by exact_mod_cast hbig
    _ ≤ (n : ℚ) * p := Int.floor_le _
  have hn : (1000000 : ℚ) ≤ (n : ℚ) := by nlinarith
  have : (n : ℚ) * p ≤ (n : ℚ) - 1 := by nlinarith
  have hf : ⌊(n : ℚ) * p⌋ ≤ ⌊(n : ℚ) - 1⌋ := Int.floor_le_floor this
  have : ((n : ℚ) - 1) = ((n - 1 : ℤ) : ℚ) := by push_cast; ring
  rw [this, Int.floor_intCast] at hf
  omega

/-- Strict decrease of the whole submitted sequence, over any prefix of
a percentage ladder whose consecutive entries drop by at least `1/20`. -/
lemma chain_of_scaled (n : ℤ) :
    ∀ (qs : List ℚ), (∀ p ∈ qs, 0 < p ∧ p ≤ 19/20) →
      List.Chain' (fun a b => b + 1/20 ≤ a) qs →
      (∀ x ∈ qs.map (fun p => ⌊(n : ℚ) * p⌋), (1000000 : ℤ) ≤ x) →
      List.Chain' (fun a b : ℤ => b < a)
        (n :: qs.map (fun p => ⌊(n : ℚ) * p⌋)) := by
  intro qs
  induction qs with
  | nil => intro _ _ _; simp
  | cons q rest ih =>
    intro hmem hchain hbig
    have hq := hmem q (by simp)
    have hbq : (1000000 : ℤ) ≤ ⌊(n : ℚ) * q⌋ := hbig _ (by simp)
    rw [List.map_cons, List.chain'_cons]
    refine ⟨floor_scale_head n q hq.1 hq.2 hbq, ?_⟩
    cases rest with
    | nil => simp
    | cons q' rest' =>
      have hq' := hmem q' (by simp)
      have hbq' : (1000000 : ℤ) ≤ ⌊(n : ℚ) * q'⌋ := hbig _ (by simp)
      have hgap : q' + 1/20 ≤ q := (List.chain'_cons.mp hchain).1
      rw [List.map_cons, List.chain'_cons]
      refine ⟨floor_scale_strict n q q' hq'.1 hq'.2 hgap hbq', ?_⟩
      have htail := ih (fun p hp => hmem p (by simp [hp]))
        (List.chain'_cons.mp hchain).2
        (fun x hx => hbig x (by simp at hx ⊢; tauto))
      exact (List.chain'_cons.mp htail).2

/-- The concrete retry ladder: every entry is in `(0, 19/20]` and
consecutive entries drop by at least `1/20`. -/
lemma retry_pcts_facts :
    (∀ p ∈ WITHDRAWAL_RETRY_PERCENTAGES, 0 < p ∧ p ≤ 19/20)
    ∧ List.Chain' (fun a b => b + 1/20 ≤ a) WITHDRAWAL_RETRY_PERCENTAGES := by
  constructor
  · intro p hp
    fin_cases hp <;> norm_num
  · simp only [WITHDRAWAL_RETRY_PERCENTAGES]
    norm_num [List.chain'_cons, List.chain'_singleton]

/-- C3: for every ledger behaviour and every initial amount, the
sequence of amounts `attemptWithdrawalWithRetry` submits to the ledger
(its instrumented trace) starts at the requested amount, is strictly
decreasing, walks the fractions `[95%, 90%, 85%, 80%, 75%, 70%, 60%,
50%]` of the original amount in order, keeps every retry at or above
the `$1` floor (`1e6` micro-USD), continues only past
insufficient-equity failures, and on success stops at the first
successful submission (whose amount is the reported actual amount). -/
theorem withdrawal_retry_ladder (ledger : ℕ → Option String) (n : ℤ) :
    ((attemptWithdrawalWithRetry ledger n).2.head? = some n)
    ∧ List.Chain' (fun a b : ℤ => b < a) (attemptWithdrawalWithRetry ledger n).2
    ∧ (∀ x ∈ (attemptWithdrawalWithRetry ledger n).2.tail,
        MIN_WITHDRAWAL_USD * 1000000 ≤ x)
    ∧ ((attemptWithdrawalWithRetry ledger n).2.tail
        = (WITHDRAWAL_RETRY_PERCENTAGES.take
            (attemptWithdrawalWithRetry ledger n).2.tail.length).map
              (fun p => ⌊(n : ℚ) * p⌋))
    ∧ (∀ j, j + 1 < (attemptWithdrawalWithRetry ledger n).2.length →
        isInsufficientEquityError (ledger j) = true)
    ∧ ((attemptWithdrawalWithRetry ledger n).1.submitted = true →
        ledger ((attemptWithdrawalWithRetry ledger n).2.length - 1) = none
        ∧ (attemptWithdrawalWithRetry ledger n).1.actualUsdMicros
            = (attemptWithdrawalWithRetry ledger n).2.getLast?) := by
  unfold attemptWithdrawalWithRetry
  rcases hled : ledger 0 with _ | m
  · refine ⟨rfl, by simp, by simp, by simp, ?_, ?_⟩
    · intro j hj; simp at hj
    · intro _; exact ⟨by simpa using hled, by simp⟩
  · by_cases hie : isInsufficientEquityError (some m) = true
    · simp only [hie, if_true]
      have hfloor := retryLadder_floor ledger n WITHDRAWAL_RETRY_PERCENTAGES 1
      have hshape := retryLadder_shape ledger n WITHDRAWAL_RETRY_PERCENTAGES 1
      have honly := retryLadder_onlyIE ledger n WITHDRAWAL_RETRY_PERCENTAGES 1
      have hsucc := retryLadder_success ledger n WITHDRAWAL_RETRY_PERCENTAGES
      refine ⟨rfl, ?_, ?_, ?_, ?_, ?_⟩
      · -- strict decrease of n :: trace
        have hqs := retry_pcts_facts.1
        have hch := retry_pcts_facts.2
        have hprefix : List.Chain' (fun a b => b + 1/20 ≤ a)
            (WITHDRAWAL_RETRY_PERCENTAGES.take
              (retryLadder ledger n WITHDRAWAL_RETRY_PERCENTAGES 1).2.length) :=
          hch.prefix (List.take_prefix _ _)
        have hmem : ∀ p ∈ WITHDRAWAL_RETRY_PERCENTAGES.take
            (retryLadder ledger n WITHDRAWAL_RETRY_PERCENTAGES 1).2.length,
            0 < p ∧ p ≤ 19/20 :=
          fun p hp => hqs p (List.mem_of_mem_take hp)
        have hbig : ∀ x ∈ (WITHDRAWAL_RETRY_PERCENTAGES.take
            (retryLadder ledger n WITHDRAWAL_RETRY_PERCENTAGES 1).2.length).map
            (fun p => ⌊(n : ℚ) * p⌋), (1000000 : ℤ) ≤ x := by
          intro x hx
          rw [← hshape] at hx
          simpa using hfloor x hx
        have hchain := chain_of_scaled n _ hmem hprefix hbig
        rw [← hshape] at hchain
        simpa using hchain
      · intro x hx
        exact hfloor x (by simpa using hx)
      · simpa using hshape
      · intro j hj
        cases j with
        | zero =>
          have : ledger 0 = some m := hled
          simp [this, hie]
        | succ j' =>
          have hlt : j' + 1 <
              (retryLadder ledger n WITHDRAWAL_RETRY_PERCENTAGES 1).2.length := by
            simpa using hj
          have := honly j' hlt
          have harith : 1 + j' = j' + 1 := by omega
          rwa [harith] at this
      · intro hsub
        obtain ⟨hne, hlast, hact⟩ := hsucc 1 (by simpa using hsub)
        constructor
        · have hlen : (retryLadder ledger n WITHDRAWAL_RETRY_PERCENTAGES 1).2.length ≠ 0 :=
            fun hz => hne (List.length_eq_zero.mp hz)
          convert hlast using 2
          simp only [List.length_cons]
          omega
        · have hsome := List.getLast?_isSome.mpr hne
          obtain ⟨y, hy⟩ := Option.isSome_iff_exists.mp hsome
          simp only [List.getLast?_cons, hy]
          simpa [hy] using hact
    · simp only [hie, if_false]
      refine ⟨rfl, by simp, by simp, by simp, ?_, ?_⟩
      · intro j hj; simp at hj
      · intro h; simp at h

end RetryThms

section ExecThms

open Deposit Rebalance Exec

/-- `depositToVault` ends in a terminal status compatible with its
dry-run mode: live runs yield `skipped`/`submitted`/`error`, dry runs
yield `skipped`/`prepared`. -/
lemma depositToVault_status (o : DepositVaultOptions) (out : Option String) :
    (o.dryRun.getD true = false →
      ((depositToVault o out).status = .skipped
        ∨ (depositToVault o out).status = .submitted
        ∨ (depositToVault o out).status = .error))
    ∧ (o.dryRun.getD true = true →
      ((depositToVault o out).status = .skipped
        ∨ (depositToVault o out).status = .prepared)) := by
  unfold depositToVault
  by_cases h1 : toUsdMicrosFromDeposit o ≤ 0 <;>
    rcases h2 : o.dryRun.getD true <;>
    rcases out <;>
    simp [h1, h2]

/-- `depositToVault` reports the vault address it was asked to act on. -/
lemma depositToVault_vaultAddress (o : DepositVaultOptions) (out : Option String) :
    (depositToVault o out).vaultAddress = o.vaultAddress := by
  unfold depositToVault
  by_cases h1 : toUsdMicrosFromDeposit o ≤ 0 <;>
    rcases h2 : o.dryRun.getD true <;>
    rcases out <;>
    simp [h1, h2]

/-- Accounting invariant of the `executeDepositPlan` loop: one action
per remaining target, in order, counters matching the statuses in the
produced action list, and statuses constrained by the dry-run mode. -/
lemma executeLoop_spec (dryRun : Bool) (minD : ℚ) (ledger : ℕ → Option String) :
    ∀ (ts : List DepositTarget) (k : ℕ),
      (executeLoop dryRun minD ledger ts k).2.2.2.length = ts.length
      ∧ (∀ j, ((executeLoop dryRun minD ledger ts k).2.2.2.get? j).map
            (fun a => a.vaultAddress)
          = (ts.get? j).map (fun t => t.vaultAddress))
      ∧ (executeLoop dryRun minD ledger ts k).1
          = (executeLoop dryRun minD ledger ts k).2.2.2.countP
              (fun a => decide (a.status = TransferStatus.submitted))
      ∧ (executeLoop dryRun minD ledger ts k).2.1
          = (executeLoop dryRun minD ledger ts k).2.2.2.countP
              (fun a => decide (a.status = TransferStatus.skipped))
      ∧ (executeLoop dryRun minD ledger ts k).2.2.1
          = (executeLoop dryRun minD ledger ts k).2.2.2.countP
              (fun a => decide (a.status = TransferStatus.error))
      ∧ (∀ a ∈ (executeLoop dryRun minD ledger ts k).2.2.2,
          (dryRun = false →
            (a.status = .skipped ∨ a.status = .submitted ∨ a.status = .error))
          ∧ (dryRun = true → (a.status = .skipped ∨ a.status = .prepared))) := by
  intro ts
  induction ts with
  | nil => intro k; simp [executeLoop]
  | cons t rest ih =>
    intro k
    obtain ⟨ihlen, ihaddr, ihsub, ihskp, iherr, ihstat⟩ := ih (k + 1)
    by_cases hmin : t.depositUsd < minD
    · simp only [executeLoop, hmin, if_true]
      refine ⟨by simp [ihlen], ?_, ?_, ?_, ?_, ?_⟩
      · intro j
        cases j with
        | zero => simp
        | succ j' => simpa using ihaddr j'
      · simpa [List.countP_cons] using ihsub
      · simpa [List.countP_cons] using ihskp
      · simpa [List.countP_cons] using iherr
      · intro a ha
        rcases List.mem_cons.mp ha with h | h
        · subst h; exact ⟨fun _ => Or.inl rfl, fun _ => Or.inl rfl⟩
        · exact ihstat a h
    · simp only [executeLoop, hmin, if_false]
      refine ⟨by simp [ihlen], ?_, ?_, ?_, ?_, ?_⟩
      · intro j
        cases j with
        | zero => simp [depositToVault_vaultAddress]
        | succ j' => simpa using ihaddr j'
      · simp only [List.countP_cons, ihsub, decide_eq_true_eq]
      · simp only [List.countP_cons, ihskp, decide_eq_true_eq]
      · simp only [List.countP_cons, iherr, decide_eq_true_eq]
      · intro a ha
        rcases List.mem_cons.mp ha with h | h
        · subst h
          have := depositToVault_status
            { vaultAddress := t.vaultAddress, amountUsd := some t.depositUsd,
              dryRun := some dryRun } (ledger k)
          simpa using this
        · exact ihstat a h

/-- An action list whose statuses are all terminal live statuses has
its three status counts summing to its length. -/
lemma countP_status_total (acts : List VaultTransferAction)
    (h : ∀ a ∈ acts,
      a.status = .skipped ∨ a.status = .submitted ∨ a.status = .error) :
    acts.countP (fun a => decide (a.status = TransferStatus.submitted))
      + acts.countP (fun a => decide (a.status = TransferStatus.skipped))
      + acts.countP (fun a => decide (a.status = TransferStatus.error))
    = acts.length := by
  induction acts with
  | nil => simp
  | cons a rest ih =>
    have ha := h a (by simp)
    have ihres := ih (fun b hb => h b (by simp [hb]))
    simp only [List.countP_cons, List.length_cons]
    rcases ha with h1 | h1 | h1 <;> simp [h1] <;> omega

/-- C10: for every plan, options and ledger behaviour,
`executeDepositPlan` emits exactly one action per plan target in plan
order; `total` is the target count; the `submitted`/`skipped`/`errors`
counters equal the number of actions bearing that status; with
`dryRun = false` every action is `submitted`, `skipped` or `error` (so
the three counters sum to `total`), and with `dryRun = true` every
action is `prepared` or `skipped` (so `prepared` actions are counted by
none of the three counters). -/
theorem execute_deposit_plan_accounting (targets : List DepositTarget)
    (o : ExecOptions) (ledger : ℕ → Option String) :
    (executeDepositPlan targets o ledger).total = targets.length
    ∧ (executeDepositPlan targets o ledger).actions.length = targets.length
    ∧ (∀ j, ((executeDepositPlan targets o ledger).actions.get? j).map
          (fun a => a.vaultAddress)
        = (targets.get? j).map (fun t => t.vaultAddress))
    ∧ (executeDepositPlan targets o ledger).submitted
        = (executeDepositPlan targets o ledger).actions.countP
            (fun a => decide (a.status = TransferStatus.submitted))
    ∧ (executeDepositPlan targets o ledger).skipped
        = (executeDepositPlan targets o ledger).actions.countP
            (fun a => decide (a.status = TransferStatus.skipped))
    ∧ (executeDepositPlan targets o ledger).errors
        = (executeDepositPlan targets o ledger).actions.countP
            (fun a => decide (a.status = TransferStatus.error))
    ∧ (∀ a ∈ (executeDepositPlan targets o ledger).actions,
        (o.dryRun.getD true = false →
          (a.status = .skipped ∨ a.status = .submitted ∨ a.status = .error))
        ∧ (o.dryRun.getD true = true →
          (a.status = .skipped ∨ a.status = .prepared)))
    ∧ (o.dryRun.getD true = false →
        (executeDepositPlan targets o ledger).submitted
          + (executeDepositPlan targets o ledger).skipped
          + (executeDepositPlan targets o ledger).errors
        = (executeDepositPlan targets o ledger).total) := by
  obtain ⟨hlen, haddr, hsub, hskp, herr, hstat⟩ :=
    executeLoop_spec (o.dryRun.getD true) (max 0 (o.minDepositUsd.getD 5))
      ledger targets 0
  refine ⟨rfl, hlen, haddr, hsub, hskp, herr, hstat, ?_⟩
  intro hdry
  show (executeLoop (o.dryRun.getD true) (max 0 (o.minDepositUsd.getD 5)) ledger targets 0).1
      + (executeLoop (o.dryRun.getD true) (max 0 (o.minDepositUsd.getD 5)) ledger targets 0).2.1
      + (executeLoop (o.dryRun.getD true) (max 0 (o.minDepositUsd.getD 5)) ledger targets 0).2.2.1
    = targets.length
  rw [hsub, hskp, herr, ← hlen]
  exact countP_status_total _ (fun a ha => (hstat a ha).1 hdry)

end ExecThms

section OrchThms

open Deposit Orchestrator

/-- The take-profit gate fires exactly on recommended, sufficiently
profitable, over-allocated positions. -/
lemma tpGate_eq_some (recommended : List String)
    (allocations : List (String × TargetAllocation)) (p : PositionRec) (t : ℚ) :
    tpGate recommended allocations p = some t ↔
      (strToLower p.vaultAddress) ∈ recommended
      ∧ TP_THRESHOLD_PCT ≤ p.roePct.getD 0
      ∧ ∃ a, mapGet allocations (strToLower p.vaultAddress) = some a
          ∧ t = a.targetUsd ∧ a.targetUsd < p.amountUsd.getD 0 := by
  unfold tpGate
  by_cases hc : recommended.contains (strToLower p.vaultAddress)
  · have hmem : (strToLower p.vaultAddress) ∈ recommended := List.elem_iff.mp hc
    by_cases hroe : p.roePct.getD 0 < TP_THRESHOLD_PCT
    · simp [hc, hroe, hmem, not_le.mpr hroe]
    · rcases hga : mapGet allocations (strToLower p.vaultAddress) with _ | a
      · simp [hc, hroe, hga, hmem, not_lt.mp hroe]
      · by_cases hover : p.amountUsd.getD 0 ≤ a.targetUsd
        · simp [hc, hroe, hga, hover, hmem, not_lt.mp hroe, not_lt.mpr hover]
        · simp [hc, hroe, hga, hover, hmem, not_lt.mp hroe, not_le.mp hover,
            eq_comm]
  · have hnc : ¬ (strToLower p.vaultAddress) ∈ recommended := fun h =>
      hc (List.elem_iff.mpr h)
    simp [hc, hnc]

/-- The full-exit gate fires exactly on non-recommended positions with
a finite, strictly positive PnL. -/
lemma withdrawGate_eq_true (recommended : List String) (p : PositionRec) :
    withdrawGate recommended p = true ↔
      (strToLower p.vaultAddress) ∉ recommended
      ∧ ∃ v, p.pnlUsd = some v ∧ 0 < v := by
  unfold withdrawGate
  by_cases hc : recommended.contains (strToLower p.vaultAddress)
  · simp [hc, List.elem_iff.mp hc]
  · have hnc : (strToLower p.vaultAddress) ∉ recommended := fun h =>
      hc (List.elem_iff.mpr h)
    rcases hv : p.pnlUsd with _ | v
    · simp [hc, hv, hnc]
    · simp [hc, hv, hnc]

/-- Membership in the round's take-profit calls, characterised. -/
lemma tpCalls_iff (i : PlanInputs) (eh el : ℚ)
    (positions : List PositionRec) (p : PositionRec) (t : ℚ) :
    (p, t) ∈ (runRoundDecisions i eh el positions).tpCalls ↔
      p ∈ positions
      ∧ tpGate (runRoundDecisions i eh el positions).recommended
          (runRoundDecisions i eh el positions).allocations p = some t := by
  have h1 : (runRoundDecisions i eh el positions).tpCalls
      = positions.filterMap
          (fun q => (tpGate (runRoundDecisions i eh el positions).recommended
            (runRoundDecisions i eh el positions).allocations q).map
              (fun u => (q, u))) := rfl
  rw [h1, List.mem_filterMap]
  constructor
  · rintro ⟨q, hq, hqe⟩
    rw [Option.map_eq_some'] at hqe
    obtain ⟨u, hu, huv⟩ := hqe
    rw [Prod.mk.injEq] at huv
    obtain ⟨rfl, rfl⟩ := huv
    exact ⟨hq, hu⟩
  · rintro ⟨hp, hg⟩
    exact ⟨p, hp, by rw [hg]; rfl⟩

/-- Membership in the round's full-withdrawal calls, characterised:
non-recommended and finite positive PnL — nothing else is consulted. -/
lemma withdrawalCalls_iff (i : PlanInputs) (eh el : ℚ)
    (positions : List PositionRec) (p : PositionRec) :
    p ∈ (runRoundDecisions i eh el positions).withdrawalCalls ↔
      p ∈ positions
      ∧ (strToLower p.vaultAddress) ∉ (runRoundDecisions i eh el positions).recommended
      ∧ ∃ v, p.pnlUsd = some v ∧ 0 < v := by
  have h1 : (runRoundDecisions i eh el positions).withdrawalCalls
      = positions.filter
          (withdrawGate (runRoundDecisions i eh el positions).recommended) := rfl
  rw [h1, List.mem_filter, withdrawGate_eq_true]

/-- C5 (amended): in `runRound`, a position whose vault is not in the
recommended set is fully withdrawn **iff** its `pnlUsd` is a finite
number strictly greater than zero; `roePct` (and any ROE ≥ 2 boundary)
is not consulted by the exit decision. -/
theorem non_recommended_exit_rule (i : PlanInputs) (eh el : ℚ)
    (positions : List PositionRec) (p : PositionRec) (hp : p ∈ positions) :
    p ∈ (runRoundDecisions i eh el positions).withdrawalCalls ↔
      (strToLower p.vaultAddress) ∉ (runRoundDecisions i eh el positions).recommended
      ∧ ∃ v, p.pnlUsd = some v ∧ 0 < v := by
  rw [withdrawalCalls_iff]
  tauto

/-- C4 (amended): `runRound` has no inactive-vault exit rule.  A held
position with zero active on-chain positions and zero trades in the
last 7 days is treated exactly like any other position: it receives a
full withdrawal **iff** it is non-recommended and its `pnlUsd` is
finite and strictly positive — not "regardless of PnL sign". -/
theorem no_inactive_exit_rule (i : PlanInputs) (eh el : ℚ)
    (positions : List PositionRec) (p : PositionRec) (hp : p ∈ positions)
    (hcount : p.activePositionCount = 0) (htrades : p.tradesLast7d = 0) :
    p ∈ (runRoundDecisions i eh el positions).withdrawalCalls ↔
      (strToLower p.vaultAddress) ∉ (runRoundDecisions i eh el positions).recommended
      ∧ ∃ v, p.pnlUsd = some v ∧ 0 < v := by
  rw [withdrawalCalls_iff]
  tauto

/-- A concrete round input with an empty recommendation set. -/
def cex4Plan : PlanInputs :=
  { recommendations := { highConfidence := [], lowConfidence := [] },
    perpsBalanceUsd := 0, currentEquities := [] }

/-- A held position that is inactive (0 active positions, 0 trades in
7 days), non-recommended, and carries a negative PnL. -/
def cex4Position : PositionRec :=
  { vaultAddress := "0xaaa", amountUsd := some 50, pnlUsd := some (-5),
    roePct := some 7, activePositionCount := 0, tradesLast7d := 0 }

/-- The empty-recommendation plan emits no targets. -/
lemma cex4Plan_targets_nil : (planCalc cex4Plan).targets = [] := by
  simp [planCalc, cex4Plan, sortByScoreDesc]

/-- C4 (counterexample): an inactive position (0 active positions, 0
trades in 7 days) that is non-recommended but has negative PnL receives
**no** withdrawal from `runRound` — there is no inactive-exit rule, so
"full withdrawal regardless of PnL sign" fails. -/
theorem inactive_exit_cex :
    cex4Position.activePositionCount = 0
    ∧ cex4Position.tradesLast7d = 0
    ∧ (runRoundDecisions cex4Plan 80 20 [cex4Position]).recommended = []
    ∧ (runRoundDecisions cex4Plan 80 20 [cex4Position]).withdrawalCalls = []
    ∧ (runRoundDecisions cex4Plan 80 20 [cex4Position]).tpCalls = [] := by
  have hrec : (runRoundDecisions cex4Plan 80 20 [cex4Position]).recommended
      = (planCalc cex4Plan).targets.map (fun t => strToLower t.vaultAddress) := rfl
  have hrecnil : (runRoundDecisions cex4Plan 80 20 [cex4Position]).recommended = [] := by
    rw [hrec, cex4Plan_targets_nil]; rfl
  refine ⟨rfl, rfl, hrecnil, ?_, ?_⟩
  · rw [List.eq_nil_iff_forall_not_mem]
    intro p hp
    rw [withdrawalCalls_iff] at hp
    obtain ⟨hmem, _, v, hv, hvpos⟩ := hp
    rw [List.mem_singleton] at hmem
    subst hmem
    simp only [cex4Position, Option.some_inj] at hv
    rw [← hv] at hvpos
    norm_num at hvpos
  · rw [List.eq_nil_iff_forall_not_mem]
    rintro ⟨p, t⟩ hpt
    rw [tpCalls_iff, tpGate_eq_some] at hpt
    obtain ⟨_, hrecmem, _⟩ := hpt
    rw [hrecnil] at hrecmem
    simp at hrecmem

/-- C4 (witness): the amended rule applied to the concrete inactive
position — it is withdrawn iff non-recommended with positive finite
PnL (false here, since its PnL is −5). -/
theorem no_inactive_exit_rule_witness :
    (cex4Position ∈ [cex4Position]
      ∧ cex4Position.activePositionCount = 0
      ∧ cex4Position.tradesLast7d = 0)
    ∧ (cex4Position ∈ (runRoundDecisions cex4Plan 80 20 [cex4Position]).withdrawalCalls ↔
        (strToLower cex4Position.vaultAddress)
          ∉ (runRoundDecisions cex4Plan 80 20 [cex4Position]).recommended
        ∧ ∃ v, cex4Position.pnlUsd = some v ∧ 0 < v) :=
  ⟨⟨by simp, rfl, rfl⟩,
    no_inactive_exit_rule cex4Plan 80 20 [cex4Position] cex4Position
      (by simp) rfl rfl⟩

/-- A concrete round input with an empty recommendation set (C5). -/
def cex5Plan : PlanInputs :=
  { recommendations := { highConfidence := [], lowConfidence := [] },
    perpsBalanceUsd := 0, currentEquities := [] }

/-- A non-recommended position with `roePct = 1.9` and positive PnL. -/
def cex5Position : PositionRec :=
  { vaultAddress := "0xbbb", amountUsd := some 50, pnlUsd := some 5,
    roePct := some (19/10) }

/-- The empty-recommendation plan emits no targets (C5 instance). -/
lemma cex5Plan_targets_nil : (planCalc cex5Plan).targets = [] := by
  simp [planCalc, cex5Plan, sortByScoreDesc]

/-- C5 (counterexample): a non-recommended position with
`roePct = 1.9` **is** fully withdrawn (because its `pnlUsd = 5 > 0`),
contradicting "a non-recommended position with roePct = 1.9 is never
withdrawn": the exit gate reads `pnlUsd`, not `roePct`. -/
theorem roe_boundary_cex :
    cex5Position.roePct = some (19/10)
    ∧ (runRoundDecisions cex5Plan 80 20 [cex5Position]).withdrawalCalls
        = [cex5Position] := by
  refine ⟨rfl, ?_⟩
  have hrecnil : (runRoundDecisions cex5Plan 80 20 [cex5Position]).recommended = [] := by
    have hrec : (runRoundDecisions cex5Plan 80 20 [cex5Position]).recommended
        = (planCalc cex5Plan).targets.map (fun t => strToLower t.vaultAddress) := rfl
    rw [hrec, cex5Plan_targets_nil]; rfl
  have h1 : (runRoundDecisions cex5Plan 80 20 [cex5Position]).withdrawalCalls
      = [cex5Position].filter
          (withdrawGate (runRoundDecisions cex5Plan 80 20 [cex5Position]).recommended) := rfl
  rw [h1]
  have hgate : withdrawGate
      (runRoundDecisions cex5Plan 80 20 [cex5Position]).recommended cex5Position = true := by
    rw [withdrawGate_eq_true, hrecnil]
    exact ⟨by simp, 5, rfl, by norm_num⟩
  simp [List.filter, hgate]

/-- C5 (witness): the amended rule applied to the concrete
`roePct = 1.9`, `pnlUsd = 5` position. -/
theorem non_recommended_exit_rule_witness :
    (cex5Position ∈ [cex5Position])
    ∧ (cex5Position ∈ (runRoundDecisions cex5Plan 80 20 [cex5Position]).withdrawalCalls ↔
        (strToLower cex5Position.vaultAddress)
          ∉ (runRoundDecisions cex5Plan 80 20 [cex5Position]).recommended
        ∧ ∃ v, cex5Position.pnlUsd = some v ∧ 0 < v) :=
  ⟨by simp,
    non_recommended_exit_rule cex5Plan 80 20 [cex5Position] cex5Position (by simp)⟩

end OrchThms

section PlanThms

open Deposit

/-- One cent-rounding step overshoots by at most half a cent. -/
lemma roundUsd_le (q : ℚ) : roundUsd q ≤ q + 1/200 := by
  unfold roundUsd jsRound
  have h := Int.floor_le (q * 100 + 1/2)
  rw [div_le_iff₀ (by norm_num : (0:ℚ) < 100)]
  linarith

/-- Rounding zero cents gives zero. -/
lemma roundUsd_zero : roundUsd 0 = 0 := by
  norm_num [roundUsd, jsRound]

/-- `roundPct` keeps non-negative values non-negative. -/
lemma roundPct_nonneg {q : ℚ} (hq : 0 ≤ q) : 0 ≤ roundPct q := by
  unfold roundPct jsRound
  have h : (0 : ℤ) ≤ ⌊q * 100 + 1/2⌋ := by
    rw [Int.le_floor]
    push_cast
    linarith
  positivity

/-- Sum of a constant-valued map. -/
lemma sum_map_const_rat {α : Type} (l : List α) (q : ℚ) :
    (l.map (fun _ => q)).sum = l.length * q := by
  induction l with
  | nil => simp
  | cons x xs ih => simp [ih]; ring

/-- The normalized group percentages are non-negative for non-negative
raw inputs. -/
lemma normalizeGroupPcts_nonneg (h l : ℚ) (a b : ℕ)
    (hh : 0 ≤ h) (hl : 0 ≤ l) :
    0 ≤ (normalizeGroupPcts h l a b).1 ∧ 0 ≤ (normalizeGroupPcts h l a b).2 := by
  unfold normalizeGroupPcts
  split
  · norm_num
  split
  · norm_num
  split
  · norm_num
  dsimp only
  split
  · norm_num
  · next htot =>
    push_neg at htot
    constructor <;> apply roundPct_nonneg <;> positivity

/-- The plan's target list, as the two group maps. -/
lemma planCalc_targets_eq (i : PlanInputs) :
    (planCalc i).targets
      = (planCalc i).limitedHigh.map
          (fun r => buildTargetFromAllocation r .high
            (planCalc i).adjustedHighAllocation (planCalc i).filteredHighCount)
        ++ (planCalc i).limitedLow.map
          (fun r => buildTargetFromAllocation r .low
            (planCalc i).adjustedLowAllocation (planCalc i).filteredLowCount) := rfl

/-- The summed deposits of one group map. -/
lemma group_deposit_sum (l : List VaultRecommendation) (conf : Confidence)
    (A : ℚ) (n : ℕ) :
    ((l.map (fun r => buildTargetFromAllocation r conf A n)).map
        (fun t => t.depositUsd)).sum
      = l.length * roundUsd (if 0 < n then A / n else 0) := by
  rw [List.map_map]
  have hconst : ((fun t => t.depositUsd)
      ∘ (fun r => buildTargetFromAllocation r conf A n))
      = fun _ => roundUsd (if 0 < n then A / n else 0) := rfl
  rw [hconst, sum_map_const_rat]

/-- Total planned deposits, in closed form. -/
lemma planCalc_sum (i : PlanInputs) :
    (((planCalc i).targets).map (fun t => t.depositUsd)).sum
      = (planCalc i).filteredHighCount
          * roundUsd (if 0 < (planCalc i).filteredHighCount
              then (planCalc i).adjustedHighAllocation / (planCalc i).filteredHighCount
              else 0)
        + (planCalc i).filteredLowCount
          * roundUsd (if 0 < (planCalc i).filteredLowCount
              then (planCalc i).adjustedLowAllocation / (planCalc i).filteredLowCount
              else 0) := by
  rw [planCalc_targets_eq, List.map_append, List.sum_append,
    group_deposit_sum, group_deposit_sum]
  rfl

/-- Number of plan targets: one per selected vault. -/
lemma planCalc_targets_length (i : PlanInputs) :
    (planCalc i).targets.length
      = (planCalc i).filteredHighCount + (planCalc i).filteredLowCount := by
  rw [planCalc_targets_eq]
  simp only [List.length_append, List.length_map]
  rfl

/-- Every plan target comes from one of the two groups, carries that
group's confidence tag, and its `depositUsd` is the group allocation
divided by the (positive) group size, rounded to cents. -/
lemma target_mem_cases (i : PlanInputs) (t : DepositTarget)
    (ht : t ∈ (planCalc i).targets) :
    (t.confidence = .high ∧ 0 < (planCalc i).filteredHighCount
      ∧ t.depositUsd = roundUsd
          ((planCalc i).adjustedHighAllocation / (planCalc i).filteredHighCount))
    ∨ (t.confidence = .low ∧ 0 < (planCalc i).filteredLowCount
      ∧ t.depositUsd = roundUsd
          ((planCalc i).adjustedLowAllocation / (planCalc i).filteredLowCount)) := by
  rw [planCalc_targets_eq, List.mem_append] at ht
  have hfh : (planCalc i).filteredHighCount = (planCalc i).limitedHigh.length := rfl
  have hfl : (planCalc i).filteredLowCount = (planCalc i).limitedLow.length := rfl
  rcases ht with ht | ht
  · left
    rw [List.mem_map] at ht
    obtain ⟨r, hr, rfl⟩ := ht
    have hpos : 0 < (planCalc i).filteredHighCount := by
      rw [hfh]
      exact List.length_pos.mpr (List.ne_nil_of_mem hr)
    refine ⟨rfl, hpos, ?_⟩
    show roundUsd _ = _
    rw [if_pos hpos]
  · right
    rw [List.mem_map] at ht
    obtain ⟨r, hr, rfl⟩ := ht
    have hpos : 0 < (planCalc i).filteredLowCount := by
      rw [hfl]
      exact List.length_pos.mpr (List.ne_nil_of_mem hr)
    refine ⟨rfl, hpos, ?_⟩
    show roundUsd _ = _
    rw [if_pos hpos]

/-- Non-negativity of the plan's intermediate amounts, for non-negative
balance and configured/hinted percentages. -/
lemma planCalc_nonneg (i : PlanInputs)
    (hperps : 0 ≤ i.perpsBalanceUsd)
    (hhp : 0 ≤ i.rawHighPct) (hlp : 0 ≤ i.rawLowPct)
    (hhint : ∀ h, i.recommendations.suggestedAllocations = some h →
      (∀ v, h.highPct = some v → 0 ≤ v) ∧ (∀ v, h.lowPct = some v → 0 ≤ v)) :
    0 ≤ (planCalc i).groupHighPct ∧ 0 ≤ (planCalc i).groupLowPct
    ∧ 0 ≤ (planCalc i).totalCapitalUsd
    ∧ 0 ≤ (planCalc i).highTargetPerVault
    ∧ 0 ≤ (planCalc i).lowTargetPerVault
    ∧ 0 ≤ (planCalc i).highAllocationNeeded
    ∧ 0 ≤ (planCalc i).lowAllocationNeeded
    ∧ 0 ≤ (planCalc i).totalAllocationNeeded := by
  have hnorm := normalizeGroupPcts_nonneg i.rawHighPct i.rawLowPct
    (planCalc i).actualHighCount (planCalc i).actualLowCount hhp hlp
  have hhpct : (planCalc i).highPct
      = (normalizeGroupPcts i.rawHighPct i.rawLowPct
          (planCalc i).actualHighCount (planCalc i).actualLowCount).1 := rfl
  have hlpct : (planCalc i).lowPct
      = (normalizeGroupPcts i.rawHighPct i.rawLowPct
          (planCalc i).actualHighCount (planCalc i).actualLowCount).2 := rfl
  have hgh : 0 ≤ (planCalc i).groupHighPct := by
    have heq : (planCalc i).groupHighPct
        = (match i.recommendations.suggestedAllocations with
          | some h => (match h.highPct with
            | some v => v
            | none => (planCalc i).highPct)
          | none => (planCalc i).highPct) := rfl
    rw [heq]
    rcases hs : i.recommendations.suggestedAllocations with _ | h
    · dsimp only; rw [hhpct]; exact hnorm.1
    · dsimp only
      rcases hv : h.highPct with _ | v
      · dsimp only; rw [hhpct]; exact hnorm.1
      · dsimp only; exact (hhint h hs).1 v hv
  have hgl : 0 ≤ (planCalc i).groupLowPct := by
    have heq : (planCalc i).groupLowPct
        = (match i.recommendations.suggestedAllocations with
          | some h => (match h.lowPct with
            | some v => v
            | none => (planCalc i).lowPct)
          | none => (planCalc i).lowPct) := rfl
    rw [heq]
    rcases hs : i.recommendations.suggestedAllocations with _ | h
    · dsimp only; rw [hlpct]; exact hnorm.2
    · dsimp only
      rcases hv : h.lowPct with _ | v
      · dsimp only; rw [hlpct]; exact hnorm.2
      · dsimp only; exact (hhint h hs).2 v hv
  have hinv : 0 ≤ (planCalc i).currentInvestedUsd := by
    have heq : (planCalc i).currentInvestedUsd
        = ((i.currentEquities.filter
            (fun e => decide (DUST_THRESHOLD_USD ≤ e.equity))).map
              (fun e => e.equity)).sum := rfl
    rw [heq]
    apply List.sum_nonneg
    intro q hq
    rw [List.mem_map] at hq
    obtain ⟨e, he, rfl⟩ := hq
    have := (List.mem_filter.mp he).2
    rw [decide_eq_true_eq] at this
    unfold DUST_THRESHOLD_USD at this
    linarith
  have htc : 0 ≤ (planCalc i).totalCapitalUsd := by
    have heq : (planCalc i).totalCapitalUsd
        = i.perpsBalanceUsd + (planCalc i).currentInvestedUsd := rfl
    rw [heq]
    linarith
  have hht : 0 ≤ (planCalc i).highTargetPerVault := by
    have heq : (planCalc i).highTargetPerVault
        = (if 0 < (planCalc i).totalHighCount
            then (planCalc i).totalCapitalUsd * ((planCalc i).groupHighPct / 100)
              / (planCalc i).totalHighCount
            else 0) := rfl
    rw [heq]
    split
    · positivity
    · exact le_refl 0
  have hlt : 0 ≤ (planCalc i).lowTargetPerVault := by
    have heq : (planCalc i).lowTargetPerVault
        = (if 0 < (planCalc i).totalLowCount
            then (planCalc i).totalCapitalUsd * ((planCalc i).groupLowPct / 100)
              / (planCalc i).totalLowCount
            else 0) := rfl
    rw [heq]
    split
    · positivity
    · exact le_refl 0
  have hhn : 0 ≤ (planCalc i).highAllocationNeeded := by
    have heq : (planCalc i).highAllocationNeeded
        = (planCalc i).highTargetPerVault * (planCalc i).filteredHighCount := rfl
    rw [heq]; positivity
  have hln : 0 ≤ (planCalc i).lowAllocationNeeded := by
    have heq : (planCalc i).lowAllocationNeeded
        = (planCalc i).lowTargetPerVault * (planCalc i).filteredLowCount := rfl
    rw [heq]; positivity
  have htn : 0 ≤ (planCalc i).totalAllocationNeeded := by
    have heq : (planCalc i).totalAllocationNeeded
        = (planCalc i).highAllocationNeeded + (planCalc i).lowAllocationNeeded := rfl
    rw [heq]; linarith
  exact ⟨hgh, hgl, htc, hht, hlt, hhn, hln, htn⟩

/-- C1: for every plan (with non-negative perps balance and
non-negative configured/hinted percentages), the planned deposits sum
to at most the recorded available balance plus a half-cent rounding
epsilon per target; and whenever the available balance covers the whole
`totalAllocationNeeded`, every target's `depositUsd` equals its
unscaled barbell per-vault target (rounded to cents) — no shrinkage. -/
theorem allocation_conservation (i : PlanInputs)
    (hperps : 0 ≤ i.perpsBalanceUsd)
    (hhp : 0 ≤ i.rawHighPct) (hlp : 0 ≤ i.rawLowPct)
    (hhint : ∀ h, i.recommendations.suggestedAllocations = some h →
      (∀ v, h.highPct = some v → 0 ≤ v) ∧ (∀ v, h.lowPct = some v → 0 ≤ v)) :
    ((((planCalc i).targets).map (fun t => t.depositUsd)).sum
        ≤ (planCalc i).availableBalanceUsd
          + ((planCalc i).targets.length : ℚ) * (1/200))
    ∧ ((planCalc i).totalAllocationNeeded ≤ (planCalc i).availableBalanceUsd →
        ∀ t ∈ (planCalc i).targets,
          t.depositUsd = roundUsd (if t.confidence = Confidence.high
            then (planCalc i).highTargetPerVault
            else (planCalc i).lowTargetPerVault)) := by
  obtain ⟨hgh, hgl, htc, hht, hlt0, hhn, hln, htn⟩ :=
    planCalc_nonneg i hperps hhp hlp hhint
  have havb : (planCalc i).availableBalanceUsd = i.perpsBalanceUsd := rfl
  have havail : (planCalc i).availableForDeposit
      = min i.perpsBalanceUsd (planCalc i).totalAllocationNeeded := rfl
  have hscale : (planCalc i).scaleFactor
      = (if 0 < (planCalc i).totalAllocationNeeded
          then (planCalc i).availableForDeposit / (planCalc i).totalAllocationNeeded
          else 0) := rfl
  have hadjh : (planCalc i).adjustedHighAllocation
      = (planCalc i).highAllocationNeeded * (planCalc i).scaleFactor := rfl
  have hadjl : (planCalc i).adjustedLowAllocation
      = (planCalc i).lowAllocationNeeded * (planCalc i).scaleFactor := rfl
  have hhneq : (planCalc i).highAllocationNeeded
      = (planCalc i).highTargetPerVault * (planCalc i).filteredHighCount := rfl
  have hlneq : (planCalc i).lowAllocationNeeded
      = (planCalc i).lowTargetPerVault * (planCalc i).filteredLowCount := rfl
  have htneq : (planCalc i).totalAllocationNeeded
      = (planCalc i).highAllocationNeeded + (planCalc i).lowAllocationNeeded := rfl
  constructor
  · rw [planCalc_sum, planCalc_targets_length, havb]
    by_cases hneed : 0 < (planCalc i).totalAllocationNeeded
    · have hscale1 : (planCalc i).scaleFactor
          = (planCalc i).availableForDeposit / (planCalc i).totalAllocationNeeded := by
        rw [hscale, if_pos hneed]
      have havail_nonneg : 0 ≤ (planCalc i).availableForDeposit := by
        rw [havail]; exact le_min hperps htn
      have hs_nonneg : 0 ≤ (planCalc i).scaleFactor := by
        rw [hscale1]; exact div_nonneg havail_nonneg (le_of_lt hneed)
      have hadjh_nonneg : 0 ≤ (planCalc i).adjustedHighAllocation := by
        rw [hadjh]; exact mul_nonneg hhn hs_nonneg
      have hadjl_nonneg : 0 ≤ (planCalc i).adjustedLowAllocation := by
        rw [hadjl]; exact mul_nonneg hln hs_nonneg
      have hsumadj : (planCalc i).adjustedHighAllocation
          + (planCalc i).adjustedLowAllocation
          = (planCalc i).availableForDeposit := by
        rw [hadjh, hadjl, hscale1, ← add_mul, ← htneq, mul_comm,
          div_mul_cancel₀ _ (ne_of_gt hneed)]
      have hgroup : ∀ (n : ℕ) (A : ℚ), 0 ≤ A →
          (n : ℚ) * roundUsd (if 0 < n then A / n else 0)
            ≤ A + (n : ℚ) * (1/200) := by
        intro n A hA
        rcases Nat.eq_zero_or_pos n with hn | hn
        · subst hn
          simp [roundUsd_zero]
          linarith
        · rw [if_pos hn]
          have hr := roundUsd_le (A / n)
          have hnq : (0:ℚ) < n := by exact_mod_cast hn
          calc (n:ℚ) * roundUsd (A / n) ≤ n * (A / n + 1/200) := by nlinarith
          _ = A + (n : ℚ) * (1/200) := by field_simp; ring
      have h1 := hgroup (planCalc i).filteredHighCount
        (planCalc i).adjustedHighAllocation hadjh_nonneg
      have h2 := hgroup (planCalc i).filteredLowCount
        (planCalc i).adjustedLowAllocation hadjl_nonneg
      have h3 : (planCalc i).availableForDeposit ≤ i.perpsBalanceUsd := by
        rw [havail]; exact min_le_left _ _
      push_cast
      linarith
    · have hscale0 : (planCalc i).scaleFactor = 0 := by rw [hscale, if_neg hneed]
      have hadjh0 : (planCalc i).adjustedHighAllocation = 0 := by
        rw [hadjh, hscale0, mul_zero]
      have hadjl0 : (planCalc i).adjustedLowAllocation = 0 := by
        rw [hadjl, hscale0, mul_zero]
      rw [hadjh0, hadjl0]
      have hz : ∀ (n : ℕ), roundUsd (if 0 < n then (0:ℚ) / n else 0) = 0 := by
        intro n
        split <;> simp [roundUsd_zero]
      rw [hz, hz]
      push_cast
      have hcast : (0:ℚ) ≤ (((planCalc i).filteredHighCount : ℚ)
          + ((planCalc i).filteredLowCount : ℚ)) * (1/200) := by positivity
      simp only [mul_zero, add_zero]
      linarith
  · intro hle t ht
    rw [havb] at hle
    rcases eq_or_lt_of_le htn with hz | hgt
    · -- the whole needed allocation is zero: every target rounds to zero
      have hhn0 : (planCalc i).highAllocationNeeded = 0 := by
        rw [htneq] at hz; linarith
      have hln0 : (planCalc i).lowAllocationNeeded = 0 := by
        rw [htneq] at hz; linarith
      have hscale0 : (planCalc i).scaleFactor = 0 := by
        rw [hscale, if_neg (by rw [← hz]; exact lt_irrefl 0)]
      rcases target_mem_cases i t ht with ⟨hconf, hpos, hdep⟩ | ⟨hconf, hpos, hdep⟩
      · have hfq : (0:ℚ) < ((planCalc i).filteredHighCount : ℚ) := by
          exact_mod_cast hpos
        have hT0 : (planCalc i).highTargetPerVault = 0 := by
          rw [hhneq] at hhn0
          rcases mul_eq_zero.mp hhn0 with h | h
          · exact h
          · exact absurd h (ne_of_gt hfq)
        have hadjh0 : (planCalc i).adjustedHighAllocation = 0 := by
          rw [hadjh, hhn0, zero_mul]
        rw [hconf, if_pos rfl, hdep, hadjh0, zero_div, hT0]
      · have hfq : (0:ℚ) < ((planCalc i).filteredLowCount : ℚ) := by
          exact_mod_cast hpos
        have hT0 : (planCalc i).lowTargetPerVault = 0 := by
          rw [hlneq] at hln0
          rcases mul_eq_zero.mp hln0 with h | h
          · exact h
          · exact absurd h (ne_of_gt hfq)
        have hadjl0 : (planCalc i).adjustedLowAllocation = 0 := by
          rw [hadjl, hln0, zero_mul]
        rw [hconf, if_neg (by simp), hdep, hadjl0, zero_div, hT0]
    · -- the balance covers the whole allocation: scale factor is one
      have hmin : (planCalc i).availableForDeposit
          = (planCalc i).totalAllocationNeeded := by
        rw [havail]; exact min_eq_right hle
      have hscale1 : (planCalc i).scaleFactor = 1 := by
        rw [hscale, if_pos hgt, hmin, div_self (ne_of_gt hgt)]
      rcases target_mem_cases i t ht with ⟨hconf, hpos, hdep⟩ | ⟨hconf, hpos, hdep⟩
      · have hfq : (0:ℚ) < ((planCalc i).filteredHighCount : ℚ) := by
          exact_mod_cast hpos
        rw [hconf, if_pos rfl, hdep, hadjh, hscale1, mul_one, hhneq,
          mul_div_cancel_right₀ _ (ne_of_gt hfq)]
      · have hfq : (0:ℚ) < ((planCalc i).filteredLowCount : ℚ) := by
          exact_mod_cast hpos
        rw [hconf, if_neg (by simp), hdep, hadjl, hscale1, mul_one, hlneq,
          mul_div_cancel_right₀ _ (ne_of_gt hfq)]

/-- C2: when the perps balance cannot cover `totalAllocationNeeded`,
the plan caps the deposit budget at the balance and scales **every**
target by the same ratio `availableForDeposit / totalAllocationNeeded`
(applied to its unscaled barbell per-vault value, then rounded to
cents); in particular at half coverage every target is exactly half its
unscaled value (rounded to cents) — uniform proportional shrinkage,
never a first-come-first-served selection. -/
theorem proportional_scaling (i : PlanInputs)
    (hperps : 0 ≤ i.perpsBalanceUsd)
    (hlt : i.perpsBalanceUsd < (planCalc i).totalAllocationNeeded) :
    (planCalc i).availableForDeposit = i.perpsBalanceUsd
    ∧ (planCalc i).scaleFactor
        = (planCalc i).availableForDeposit / (planCalc i).totalAllocationNeeded
    ∧ (∀ t ∈ (planCalc i).targets,
        t.depositUsd = roundUsd ((planCalc i).scaleFactor
          * (if t.confidence = Confidence.high
              then (planCalc i).highTargetPerVault
              else (planCalc i).lowTargetPerVault)))
    ∧ (i.perpsBalanceUsd * 2 = (planCalc i).totalAllocationNeeded →
        ∀ t ∈ (planCalc i).targets,
          t.depositUsd = roundUsd ((if t.confidence = Confidence.high
              then (planCalc i).highTargetPerVault
              else (planCalc i).lowTargetPerVault) / 2)) := by
  have hgt : 0 < (planCalc i).totalAllocationNeeded := lt_of_le_of_lt hperps hlt
  have havail : (planCalc i).availableForDeposit
      = min i.perpsBalanceUsd (planCalc i).totalAllocationNeeded := rfl
  have hscale : (planCalc i).scaleFactor
      = (if 0 < (planCalc i).totalAllocationNeeded
          then (planCalc i).availableForDeposit / (planCalc i).totalAllocationNeeded
          else 0) := rfl
  have hadjh : (planCalc i).adjustedHighAllocation
      = (planCalc i).highAllocationNeeded * (planCalc i).scaleFactor := rfl
  have hadjl : (planCalc i).adjustedLowAllocation
      = (planCalc i).lowAllocationNeeded * (planCalc i).scaleFactor := rfl
  have hhneq : (planCalc i).highAllocationNeeded
      = (planCalc i).highTargetPerVault * (planCalc i).filteredHighCount := rfl
  have hlneq : (planCalc i).lowAllocationNeeded
      = (planCalc i).lowTargetPerVault * (planCalc i).filteredLowCount := rfl
  have hmin : (planCalc i).availableForDeposit = i.perpsBalanceUsd := by
    rw [havail]; exact min_eq_left (le_of_lt hlt)
  have hscale1 : (planCalc i).scaleFactor
      = (planCalc i).availableForDeposit / (planCalc i).totalAllocationNeeded := by
    rw [hscale, if_pos hgt]
  have hscaled : ∀ t ∈ (planCalc i).targets,
      t.depositUsd = roundUsd ((planCalc i).scaleFactor
        * (if t.confidence = Confidence.high
            then (planCalc i).highTargetPerVault
            else (planCalc i).lowTargetPerVault)) := by
    intro t ht
    rcases target_mem_cases i t ht with ⟨hconf, hpos, hdep⟩ | ⟨hconf, hpos, hdep⟩
    · have hfq : (0:ℚ) < ((planCalc i).filteredHighCount : ℚ) := by
        exact_mod_cast hpos
      rw [hconf, if_pos rfl, hdep, hadjh, hhneq]
      congr 1
      field_simp
      ring
    · have hfq : (0:ℚ) < ((planCalc i).filteredLowCount : ℚ) := by
        exact_mod_cast hpos
      rw [hconf, if_neg (by simp), hdep, hadjl, hlneq]
      congr 1
      field_simp
      ring
  refine ⟨hmin, hscale1, hscaled, ?_⟩
  intro hhalf t ht
  have hp0 : 0 < i.perpsBalanceUsd := by
    have h2 : i.perpsBalanceUsd < i.perpsBalanceUsd * 2 := hhalf ▸ hlt
    linarith
  have hhalfscale : (planCalc i).scaleFactor = 1/2 := by
    rw [hscale1, hmin, ← hhalf]
    field_simp
  have := hscaled t ht
  rw [this, hhalfscale]
  congr 1
  ring

/-- The spec's barbell example: $600 of perps balance, one fresh
high-confidence vault, 70/30 split, no hints, no current positions. -/
def w1Inputs : PlanInputs :=
  { recommendations :=
      { highConfidence := [{ vaultAddress := "0xaa" }], lowConfidence := [] },
    perpsBalanceUsd := 600, currentEquities := [],
    maxActiveIn := 10, highCountIn := 7, lowCountIn := 3,
    rawHighPct := 70, rawLowPct := 30 }

/-- C1 (witness): the conservation theorem applied to the concrete
$600 single-vault plan. -/
theorem allocation_conservation_witness :
    ((0:ℚ) ≤ w1Inputs.perpsBalanceUsd
      ∧ (0:ℚ) ≤ w1Inputs.rawHighPct ∧ (0:ℚ) ≤ w1Inputs.rawLowPct
      ∧ (∀ h, w1Inputs.recommendations.suggestedAllocations = some h →
          (∀ v, h.highPct = some v → 0 ≤ v) ∧ (∀ v, h.lowPct = some v → 0 ≤ v)))
    ∧ (((((planCalc w1Inputs).targets).map (fun t => t.depositUsd)).sum
          ≤ (planCalc w1Inputs).availableBalanceUsd
            + ((planCalc w1Inputs).targets.length : ℚ) * (1/200))
      ∧ ((planCalc w1Inputs).totalAllocationNeeded
            ≤ (planCalc w1Inputs).availableBalanceUsd →
          ∀ t ∈ (planCalc w1Inputs).targets,
            t.depositUsd = roundUsd (if t.confidence = Confidence.high
              then (planCalc w1Inputs).highTargetPerVault
              else (planCalc w1Inputs).lowTargetPerVault))) :=
  ⟨⟨by norm_num [w1Inputs], by norm_num [w1Inputs], by norm_num [w1Inputs],
      by simp [w1Inputs]⟩,
    allocation_conservation w1Inputs (by norm_num [w1Inputs])
      (by norm_num [w1Inputs]) (by norm_num [w1Inputs]) (by simp [w1Inputs])⟩

/-- The spec's scarce-balance scenario: three fresh high-confidence
vaults, $1,700 of perps balance, $1,700 already invested elsewhere, so
`totalAllocationNeeded = $3,400` at the 100/0 normalized split. -/
def w2Inputs : PlanInputs :=
  { recommendations :=
      { highConfidence := [{ vaultAddress := "0xaa" }, { vaultAddress := "0xbb" },
          { vaultAddress := "0xcc" }],
        lowConfidence := [] },
    perpsBalanceUsd := 1700,
    currentEquities := [{ vaultAddress := "0xzz", equity := 1700 }],
    maxActiveIn := 10, highCountIn := 7, lowCountIn := 3,
    rawHighPct := 70, rawLowPct := 30 }

/-- The scarce scenario needs $3,400 in total. -/
lemma w2Inputs_needed : (planCalc w2Inputs).totalAllocationNeeded = 3400 := by
  have hz1 : (strToLower "0xzz" == strToLower "0xaa") = false := by decide
  have hz2 : (strToLower "0xzz" == strToLower "0xbb") = false := by decide
  have hz3 : (strToLower "0xzz" == strToLower "0xcc") = false := by decide
  norm_num [planCalc, w2Inputs, clampCount, normalizeGroupPcts, roundPct, jsRound,
    sortByScoreDesc, insertByScore, DUST_THRESHOLD_USD, hz1, hz2, hz3,
    Int.toNat_ofNat, List.filter, List.take]

/-- C2 (witness): the proportional-scaling theorem applied to the
scarce scenario ($1,700 available against $3,400 needed — exactly half
coverage). -/
theorem proportional_scaling_witness :
    ((0:ℚ) ≤ w2Inputs.perpsBalanceUsd
      ∧ w2Inputs.perpsBalanceUsd < (planCalc w2Inputs).totalAllocationNeeded)
    ∧ ((planCalc w2Inputs).availableForDeposit = w2Inputs.perpsBalanceUsd
      ∧ (planCalc w2Inputs).scaleFactor
          = (planCalc w2Inputs).availableForDeposit
            / (planCalc w2Inputs).totalAllocationNeeded
      ∧ (∀ t ∈ (planCalc w2Inputs).targets,
          t.depositUsd = roundUsd ((planCalc w2Inputs).scaleFactor
            * (if t.confidence = Confidence.high
                then (planCalc w2Inputs).highTargetPerVault
                else (planCalc w2Inputs).lowTargetPerVault)))
      ∧ (w2Inputs.perpsBalanceUsd * 2 = (planCalc w2Inputs).totalAllocationNeeded →
          ∀ t ∈ (planCalc w2Inputs).targets,
            t.depositUsd = roundUsd ((if t.confidence = Confidence.high
                then (planCalc w2Inputs).highTargetPerVault
                else (planCalc w2Inputs).lowTargetPerVault) / 2))) :=
  ⟨⟨by norm_num [w2Inputs], by rw [w2Inputs_needed]; norm_num [w2Inputs]⟩,
    proportional_scaling w2Inputs (by norm_num [w2Inputs])
      (by rw [w2Inputs_needed]; norm_num [w2Inputs])⟩

/-- C9 (amended): when one confidence group ends up with zero selected
vaults and the other with at least one, **and no finite
`suggestedAllocations` hint overrides that side**, the group split used
for per-vault division hands 100% to the non-empty group
(`normalizeGroupPcts` reassigns the empty group's share). -/
theorem empty_group_reassigned (i : PlanInputs) :
    ((planCalc i).actualHighCount = 0 → 0 < (planCalc i).actualLowCount →
      (∀ h, i.recommendations.suggestedAllocations = some h → h.lowPct = none) →
      (planCalc i).lowPct = 100 ∧ (planCalc i).groupLowPct = 100)
    ∧ ((planCalc i).actualLowCount = 0 → 0 < (planCalc i).actualHighCount →
      (∀ h, i.recommendations.suggestedAllocations = some h → h.highPct = none) →
      (planCalc i).highPct = 100 ∧ (planCalc i).groupHighPct = 100) := by
  have hhpct : (planCalc i).highPct
      = (normalizeGroupPcts i.rawHighPct i.rawLowPct
          (planCalc i).actualHighCount (planCalc i).actualLowCount).1 := rfl
  have hlpct : (planCalc i).lowPct
      = (normalizeGroupPcts i.rawHighPct i.rawLowPct
          (planCalc i).actualHighCount (planCalc i).actualLowCount).2 := rfl
  have hglo : (planCalc i).groupLowPct
      = (match i.recommendations.suggestedAllocations with
        | some h => (match h.lowPct with
          | some v => v
          | none => (planCalc i).lowPct)
        | none => (planCalc i).lowPct) := rfl
  have hghi : (planCalc i).groupHighPct
      = (match i.recommendations.suggestedAllocations with
        | some h => (match h.highPct with
          | some v => v
          | none => (planCalc i).highPct)
        | none => (planCalc i).highPct) := rfl
  constructor
  · intro h0 h1 hhint
    have hl : (planCalc i).lowPct = 100 := by
      rw [hlpct, h0]
      unfold normalizeGroupPcts
      have hne : ¬((0 : ℕ) = 0 ∧ (planCalc i).actualLowCount = 0) := by
        rintro ⟨_, h⟩
        omega
      rw [if_neg hne, if_pos rfl]
    refine ⟨hl, ?_⟩
    rw [hglo]
    rcases hs : i.recommendations.suggestedAllocations with _ | h
    · dsimp only
      exact hl
    · dsimp only
      rw [hhint h hs]
      exact hl
  · intro h0 h1 hhint
    have hh : (planCalc i).highPct = 100 := by
      rw [hhpct, h0]
      unfold normalizeGroupPcts
      have hne : ¬((planCalc i).actualHighCount = 0 ∧ (0 : ℕ) = 0) := by
        rintro ⟨h, _⟩
        omega
      have hne2 : ¬(planCalc i).actualHighCount = 0 := by omega
      rw [if_neg hne, if_neg hne2, if_pos rfl]
    refine ⟨hh, ?_⟩
    rw [hghi]
    rcases hs : i.recommendations.suggestedAllocations with _ | h
    · dsimp only
      exact hh
    · dsimp only
      rw [hhint h hs]
      exact hh

/-- A plan input whose high group selects no vaults while the low
group selects one, with a finite `suggestedAllocations` hint of 80/20
present. -/
def cex9Inputs : PlanInputs :=
  { recommendations :=
      { highConfidence := [],
        lowConfidence := [{ vaultAddress := "0xdd" }],
        suggestedAllocations := some { highPct := some 80, lowPct := some 20 } },
    perpsBalanceUsd := 100, currentEquities := [],
    maxActiveIn := 10, highCountIn := 7, lowCountIn := 3,
    rawHighPct := 70, rawLowPct := 30 }

/-- C9 (counterexample): with the 80/20 hint present, the empty high
group's share is **not** reassigned before per-vault division: the low
group keeps `groupLowPct = 20` (not 100), and the whole plan deposits
only $20 of the $100 balance — the high share is silently dropped. -/
theorem empty_group_hint_cex :
    (planCalc cex9Inputs).actualHighCount = 0
    ∧ (planCalc cex9Inputs).actualLowCount = 1
    ∧ (planCalc cex9Inputs).lowPct = 100
    ∧ (planCalc cex9Inputs).groupLowPct = 20
    ∧ (((planCalc cex9Inputs).targets).map (fun t => t.depositUsd)).sum = 20
    ∧ (planCalc cex9Inputs).availableBalanceUsd = 100 := by
  norm_num [planCalc, cex9Inputs, clampCount, normalizeGroupPcts, roundPct,
    roundUsd, jsRound, sortByScoreDesc, insertByScore, DUST_THRESHOLD_USD,
    buildTargetFromAllocation, Int.toNat_ofNat, List.filter, List.take]

end PlanThms

end Vault4
